import Mathlib

/-!
Shallow embedding of `tv_data_processor.py` (class `TVDataProcessor`).

The pipeline is: `preprocess_data` (normalize the viewing table), `merge_data`
(outer join with the producer table on Programme, fill missing Producer with
"Unknown"), `aggregate_data` (grouped peak-and-sum aggregate merged with a
per-producer cumulative aggregate), `convert_data_types`, and
`save_summary_to_json`.

Text is modelled as `List Char` (pandas object/string cells), dates as
year/month/day triples ordered lexicographically, and nullable cells as
`Option`.  Sorting uses `WithTop` so that null cells sort last, matching
`DataFrame.sort_values` with its default `na_position='last'`.
-/

namespace TVData

/-- Text cell: pandas object/string values, compared lexicographically. -/
abbrev Str : Type := List Char

/-- A `Period('M')` value: (year, month), ordered chronologically. -/
abbrev Month : Type := Nat ×ₗ Nat

/-- A parsed datetime (year, month, day), ordered chronologically.
`pd.to_datetime(..., errors='coerce')` results are modelled as `Option Dt`,
with `none` standing for `NaT`. -/
abbrev Dt : Type := Nat ×ₗ (Nat ×ₗ Nat)

/-- `df['Date'].dt.to_period('M')`: the year-month bucket of a date. -/
def dtMonth (d : Dt) : Month := toLex ((ofLex d).1, (ofLex (ofLex d).2).1)

/-- A raw row of the "Viewing data" sheet.  `date` is the lenient parse result
(`none` = unparseable, i.e. `NaT`); `viewers` is nullable (filled with 0 by the
normalizer); `Programme`, `Territory` are text and `Channel` an integer
identifier, per the raw schema. -/
structure ViewingRow where
  date : Option Dt
  programme : Str
  territory : Str
  channel : Int
  viewers : Option Nat
deriving DecidableEq

/-- A raw row of the "Producers" sheet. -/
structure ProducerRow where
  programme : Str
  producer : Str
deriving DecidableEq

/-- A normalized viewing row, output of `preprocess_data`. -/
structure NormRow where
  date : Option Dt
  month : Option Month
  programme : Str
  territory : Str
  channel : Int
  viewers : Nat
deriving DecidableEq

/-- `str.strip()` / pandas `.str.strip()`: drop leading and trailing
whitespace characters. -/
def stripChars (l : List Char) : List Char :=
  ((l.dropWhile Char.isWhitespace).reverse.dropWhile Char.isWhitespace).reverse

/-- One row of `preprocess_data` (lines 31-35 of the source): keep the
leniently-parsed `Date`, derive `Month = Date.to_period('M')`, strip
`Programme` and `Territory`, and default null `Viewers` to 0. -/
def preprocessRow (v : ViewingRow) : NormRow :=
  { date := v.date
    month := v.date.map dtMonth
    programme := stripChars v.programme
    territory := stripChars v.territory
    channel := v.channel
    viewers := v.viewers.getD 0 }

/-- `preprocess_data` applied to the whole viewing table. -/
def preprocess_data (vs : List ViewingRow) : List NormRow := vs.map preprocessRow

/-- A row of `df_producers.merge(df_viewings, on='Programme', how='outer')`
before the `fillna({'Producer': 'Unknown'})` step: the producer cell is still
nullable (null exactly on viewing rows with no producer match), and the
viewing-side cells are nullable (null exactly on producer rows with no
matching viewing row). -/
structure MergedRow where
  programme : Str
  producer : Option Str
  date : Option Dt
  month : Option Month
  territory : Option Str
  channel : Option Int
  viewers : Option Nat
deriving DecidableEq

/-- A joined row after `fillna({'Producer': 'Unknown'})`: the producer is a
non-null text cell. -/
structure JoinedRow where
  programme : Str
  producer : Str
  date : Option Dt
  month : Option Month
  territory : Option Str
  channel : Option Int
  viewers : Option Nat
deriving DecidableEq

/-- A producer row paired with a matching viewing row in the outer join. -/
def matchRow (p : ProducerRow) (v : NormRow) : MergedRow :=
  { programme := p.programme
    producer := some p.producer
    date := v.date
    month := v.month
    territory := some v.territory
    channel := some v.channel
    viewers := some v.viewers }

/-- A producer row with no matching viewing row: retained by the outer join
with null viewing-side cells. -/
def producerOnlyRow (p : ProducerRow) : MergedRow :=
  { programme := p.programme
    producer := some p.producer
    date := none
    month := none
    territory := none
    channel := none
    viewers := none }

/-- A viewing row with no matching producer row: retained by the outer join
with a null producer cell. -/
def unmatchedViewingRow (v : NormRow) : MergedRow :=
  { programme := v.programme
    producer := none
    date := v.date
    month := v.month
    territory := some v.territory
    channel := some v.channel
    viewers := some v.viewers }

/-- `df_producers.merge(df_viewings, on='Programme', how='outer')`: for each
producer row, one output row per viewing row with an equal `Programme` (or a
single producer-only row when there is none), followed by the viewing rows
whose `Programme` matches no producer row. -/
def outerMerge (ps : List ProducerRow) (vs : List NormRow) : List MergedRow :=
  (ps.flatMap fun p =>
    let ms := vs.filter fun v => decide (v.programme = p.programme)
    if ms.isEmpty then [producerOnlyRow p] else ms.map (matchRow p)) ++
  ((vs.filter fun v => ! ps.any fun p => decide (p.programme = v.programme)).map
    unmatchedViewingRow)

/-- `fillna({'Producer': 'Unknown'})`: replace a null producer cell. -/
def fillProducer (m : MergedRow) : JoinedRow :=
  { programme := m.programme
    producer := m.producer.getD "Unknown".data
    date := m.date
    month := m.month
    territory := m.territory
    channel := m.channel
    viewers := m.viewers }

/-- `merge_data` (lines 43-44 of the source): outer join then fill null
producers with "Unknown". -/
def merge_data (ps : List ProducerRow) (vs : List NormRow) : List JoinedRow :=
  (outerMerge ps vs).map fillProducer

/-- A (Producer, Month, Channel) group key, ordered lexicographically (the
ascending key order used by `groupby(..., sort=True)`). -/
abbrev Key : Type := Str ×ₗ (Month ×ₗ Int)

/-- The producer component of a group key. -/
def keyProducer (k : Key) : Str := (ofLex k).1

/-- The month component of a group key. -/
def keyMonth (k : Key) : Month := (ofLex (ofLex k).2).1

/-- The channel component of a group key. -/
def keyChannel (k : Key) : Int := (ofLex (ofLex k).2).2

/-- The group key of a joined row, or `none` when any key cell is null:
`groupby(['Producer', 'Month', 'Channel'])` drops rows with a null key
(`dropna=True`, the pandas default). -/
def keyOf (r : JoinedRow) : Option Key :=
  match r.month, r.channel with
  | some m, some c => some (toLex (r.producer, toLex (m, c)))
  | _, _ => none

/-- The distinct group keys of a table, in the ascending order produced by
`groupby(..., sort=True)`. -/
def keysOf (rows : List JoinedRow) : List Key :=
  List.insertionSort (· ≤ ·) (rows.filterMap keyOf).dedup

/-- The rows of one (Producer, Month, Channel) group. -/
def groupOf (rows : List JoinedRow) (k : Key) : List JoinedRow :=
  rows.filter fun r => decide (keyOf r = some k)

/-- The viewers cell with nulls read as 0 (pandas `sum`/`cumsum` skip `NaN`,
which is equivalent to adding 0). -/
def viewersD (r : JoinedRow) : Nat := r.viewers.getD 0

/-- One row of the peak-and-sum aggregate
`groupby(['Producer','Month','Channel']).agg(...)` (lines 52-56):
`Top_Programme = x.loc[x.idxmax()]` applied to the group's `Programme`
column, i.e. the lexicographically greatest programme text of the group;
`Highest_Viewers = max` and `Sum_of_Viewers = sum` of the group's viewers. -/
structure SummaryRow where
  key : Key
  top_programme : Str
  highest_viewers : Nat
  sum_of_viewers : Nat
deriving DecidableEq

/-- The peak-and-sum aggregate of one group (see `SummaryRow`). -/
def mkSummary (rows : List JoinedRow) (k : Key) : SummaryRow :=
  let g := groupOf rows k
  { key := k
    top_programme := (g.map (fun r => r.programme)).foldl max []
    highest_viewers := (g.map viewersD).foldl max 0
    sum_of_viewers := (g.map viewersD).sum }

/-- The whole peak-and-sum aggregate, one row per distinct key, keys
ascending (`groupby` sorts keys; `reset_index` keeps that order). -/
def summaryRows (rows : List JoinedRow) : List SummaryRow :=
  (keysOf rows).map (mkSummary rows)

/-- The sort key of `sort_values(['Producer','Month','Channel','Date'])`:
null cells sort last (`na_position='last'`). -/
abbrev SortKey : Type := Str ×ₗ (WithTop Month ×ₗ (WithTop Int ×ₗ WithTop Dt))

/-- Read an optional cell as a `WithTop` value, so nulls sort last. -/
def optTop {α : Type} (o : Option α) : WithTop α :=
  match o with
  | none => ⊤
  | some a => (a : WithTop α)

/-- The sort key of one joined row. -/
def sortKey (r : JoinedRow) : SortKey :=
  toLex (r.producer, toLex (optTop r.month, toLex (optTop r.channel, optTop r.date)))

/-- Row comparison used by `sort_values(['Producer','Month','Channel','Date'])`. -/
def rowLe (a b : JoinedRow) : Prop := sortKey a ≤ sortKey b

instance : DecidableRel rowLe := fun a b => inferInstanceAs (Decidable (sortKey a ≤ sortKey b))

instance : IsTotal JoinedRow rowLe := ⟨fun a b => le_total (sortKey a) (sortKey b)⟩

instance : IsTrans JoinedRow rowLe := ⟨fun _ _ _ hab hbc => le_trans hab hbc⟩

/-- `sort_values(['Producer','Month','Channel','Date'])`: a stable sort on the
lexicographic row key (pandas multi-key sorts via a stable `lexsort`). -/
def sortValues (rows : List JoinedRow) : List JoinedRow :=
  List.insertionSort rowLe rows

/-- The per-producer running totals: an association list from producer to its
running viewer total, most recent binding first. -/
def lookupD (acc : List (Str × Nat)) (p : Str) : Nat :=
  match acc.find? fun e => decide (e.1 = p) with
  | some e => e.2
  | none => 0

/-- `groupby(['Producer'])['Viewers'].cumsum()` (line 59): walk the rows in
order, keeping one running total per producer; a null viewers cell yields a
null cumulative cell and leaves the running total unchanged (pandas `cumsum`
skips `NaN`). -/
def cumGo (acc : List (Str × Nat)) : List JoinedRow → List (JoinedRow × Option Nat)
  | [] => []
  | r :: rs =>
    match r.viewers with
    | none => (r, none) :: cumGo acc rs
    | some v =>
      let t := lookupD acc r.producer + v
      (r, some t) :: cumGo ((r.producer, t) :: acc) rs

/-- The sorted table annotated with its `Cumulative_Viewers` column. -/
def withCum (rows : List JoinedRow) : List (JoinedRow × Option Nat) :=
  cumGo [] rows

/-- `groupby(['Producer','Month','Channel'])['Cumulative_Viewers'].max()` for
one group: the maximum non-null cumulative value among the group's rows. -/
def cumMax (cums : List (JoinedRow × Option Nat)) (k : Key) : Nat :=
  ((cums.filter fun rc => decide (keyOf rc.1 = some k)).filterMap fun rc => rc.2).foldl max 0

/-- The cumulative aggregate (lines 58-60): sort, annotate with the
per-producer running total, then take each group's maximum cumulative value;
one row per distinct key, keys ascending. -/
def cumulativeRows (rows : List JoinedRow) : List (Key × Nat) :=
  let srows := sortValues rows
  let cums := withCum srows
  (keysOf srows).map fun k => (k, cumMax cums k)

/-- A row of the final summary. -/
structure FinalRow where
  producer : Str
  month : Month
  channel : Int
  top_programme : Str
  highest_viewers : Nat
  sum_of_viewers : Nat
  cumulative_viewers : Nat
deriving DecidableEq

/-- The (Producer, Month, Channel) key of a final row. -/
def FinalRow.key (f : FinalRow) : Key := toLex (f.producer, toLex (f.month, f.channel))

/-- Combine a peak-and-sum row with its cumulative value. -/
def combineRow (s : SummaryRow) (c : Nat) : FinalRow :=
  { producer := keyProducer s.key
    month := keyMonth s.key
    channel := keyChannel s.key
    top_programme := s.top_programme
    highest_viewers := s.highest_viewers
    sum_of_viewers := s.sum_of_viewers
    cumulative_viewers := c }

/-- `aggregate_data` (lines 49-65): the peak-and-sum aggregate inner-merged
with the cumulative aggregate on (Producer, Month, Channel); the inner merge
keeps the left (peak-and-sum) row order and pairs each left row with every
cumulative row carrying an equal key. -/
def aggregate_data (rows : List JoinedRow) : List FinalRow :=
  let summary := summaryRows rows
  let cumulative := cumulativeRows rows
  summary.flatMap fun s =>
    (cumulative.filter fun c => decide (c.1 = s.key)).map fun c => combineRow s c.2

/-- `convert_data_types` (lines 70-78): `astype` to string/int schema.  In
this embedding the schema is already carried by the row type, so the cast is
the identity on well-typed rows. -/
def convert_data_types (fs : List FinalRow) : List FinalRow := fs

/-- The decimal digit character for `n % 10`. -/
def digitChar (n : Nat) : Char := Char.ofNat (48 + n % 10)

/-- The string form of a `Period('M')` value: the zero-padded "YYYY-MM"
rendering (`astype('string')` on the Month column, for the four-digit years
and two-digit month numbers `Period` renders this way). -/
def monthToStr (m : Month) : Str :=
  [digitChar ((ofLex m).1 / 1000), digitChar ((ofLex m).1 / 100),
   digitChar ((ofLex m).1 / 10), digitChar (ofLex m).1, '-',
   digitChar ((ofLex m).2 / 10), digitChar (ofLex m).2]

/-- One record of the serialized JSON output (`to_json(orient='records')`).
The month cell is the "YYYY-MM" text the string cast produced. -/
structure OutRecord where
  producer : Str
  month : Str
  channel : Int
  top_programme : Str
  highest_viewers : Nat
  sum_of_viewers : Nat
  cumulative_viewers : Nat
deriving DecidableEq

/-- Serialize one final row. -/
def serializeRow (f : FinalRow) : OutRecord :=
  { producer := f.producer
    month := monthToStr f.month
    channel := f.channel
    top_programme := f.top_programme
    highest_viewers := f.highest_viewers
    sum_of_viewers := f.sum_of_viewers
    cumulative_viewers := f.cumulative_viewers }

/-- `save_summary_to_json` (line 90): `to_json(orient='records')` emits the
rows in table order. -/
def save_summary_to_json (fs : List FinalRow) : List OutRecord :=
  fs.map serializeRow

/-- The in-memory pipeline on already-loaded tables: normalize, join,
aggregate (the value-level part of `process_and_save_data`). -/
def processPipeline (ps : List ProducerRow) (vs : List ViewingRow) : List FinalRow :=
  aggregate_data (merge_data ps (preprocess_data vs))

/-- The serialized output of the pipeline. -/
def pipelineOutput (ps : List ProducerRow) (vs : List ViewingRow) : List OutRecord :=
  save_summary_to_json (convert_data_types (processPipeline ps vs))

/-!
Column-level model of the pipeline's schema behaviour, for the error-handling
claims.  Each stage is modelled by the sequence of column accesses it makes on
the data frames; an access to an absent column is the `KeyError` the source
catches and re-raises (the spec's `SchemaMismatch`).
-/

/-- The error raised when a stage accesses an absent column (`KeyError`,
surfaced by the spec as `SchemaMismatch`). -/
inductive PipelineError where
  | schemaMismatch (col : String)
deriving DecidableEq

/-- Column accesses of `preprocess_data` (lines 31-35): reads `Date` (line
31), `Programme` (line 33) and `Territory` (line 34), raising `KeyError` on
the first absent one, and adds the derived `Month` column (line 32).
`fillna({'Viewers': 0}, ...)` (line 35) ignores dictionary keys that are not
columns of the frame, so an absent `Viewers` column raises nothing here. -/
def preprocessCols (vcols : List String) : Except PipelineError (List String) :=
  if "Date" ∉ vcols then .error (.schemaMismatch "Date")
  else if "Programme" ∉ vcols then .error (.schemaMismatch "Programme")
  else if "Territory" ∉ vcols then .error (.schemaMismatch "Territory")
  else .ok (vcols ++ ["Month"])

/-- Column accesses of `merge_data` (line 43): the join key `Programme` must
be present on both sides; the joined frame carries the union of columns. -/
def mergeCols (pcols vcols : List String) : Except PipelineError (List String) :=
  if "Programme" ∉ pcols then .error (.schemaMismatch "Programme")
  else if "Programme" ∉ vcols then .error (.schemaMismatch "Programme")
  else .ok (pcols ++ vcols.filter fun c => decide (c ≠ "Programme"))

/-- Column accesses of `aggregate_data` (lines 52-60): the group keys
`Producer`, `Month`, `Channel`, the aggregated columns `Programme` and
`Viewers`, and the sort key `Date`. -/
def aggregateCols (cols : List String) : Except PipelineError Unit :=
  if "Producer" ∉ cols then .error (.schemaMismatch "Producer")
  else if "Month" ∉ cols then .error (.schemaMismatch "Month")
  else if "Channel" ∉ cols then .error (.schemaMismatch "Channel")
  else if "Programme" ∉ cols then .error (.schemaMismatch "Programme")
  else if "Viewers" ∉ cols then .error (.schemaMismatch "Viewers")
  else if "Date" ∉ cols then .error (.schemaMismatch "Date")
  else .ok ()

/-- The columns of the "Producers" sheet per the input contract. -/
def producerCols : List String := ["Programme", "Producer"]

/-- The schema-level run of `process_and_save_data`: each stage's column
accesses in pipeline order; an `.error` aborts the run before
`save_summary_to_json` executes, so no output is written; `.ok` means every
column access succeeded and the summary is serialized. -/
def pipelineSchema (pcols vcols : List String) : Except PipelineError (List String) :=
  match preprocessCols vcols with
  | .error e => .error e
  | .ok ncols =>
    match mergeCols pcols ncols with
    | .error e => .error e
    | .ok mcols =>
      match aggregateCols mcols with
      | .error e => .error e
      | .ok _ => .ok mcols

/-!  Derived definitions used to state the claims. -/

/-- The final row the aggregate produces for one key (the peak-and-sum row
inner-merged with its cumulative value). -/
def mkFinal (rows : List JoinedRow) (k : Key) : FinalRow :=
  combineRow (mkSummary rows k) (cumMax (withCum (sortValues rows)) k)

/-- The sum of the viewers cells of the rows of one producer within a list
(the quantity `groupby(['Producer'])['Viewers'].cumsum()` accumulates). -/
def prodSum (p : Str) (l : List JoinedRow) : Nat :=
  ((l.filter fun r => decide (r.producer = p)).map viewersD).sum

/-- The association list of running totals after `cumGo` has consumed `l`. -/
def accState (acc : List (Str × Nat)) : List JoinedRow → List (Str × Nat)
  | [] => acc
  | r :: rs =>
    match r.viewers with
    | none => accState acc rs
    | some v => accState ((r.producer, lookupD acc r.producer + v) :: acc) rs

/-- The non-null `Cumulative_Viewers` cells of one group, in sorted row
order (the list whose maximum the cumulative aggregate takes). -/
def groupCums (rows : List JoinedRow) (k : Key) : List Nat :=
  ((withCum (sortValues rows)).filter fun rc => decide (keyOf rc.1 = some k)).filterMap
    fun rc => rc.2

/-- Decide whether a text cell has the shape "YYYY-MM": four decimal digits,
a dash, two decimal digits. -/
def isYYYYMM (s : Str) : Bool :=
  match s with
  | [a, b, c, d, e, f, g] =>
    a.isDigit && b.isDigit && c.isDigit && d.isDigit && e = '-' && f.isDigit && g.isDigit
  | _ => false

/-!  Concrete tables for the scenario claims. -/

/-- The two viewing rows of the spec's scenario. -/
def c7Viewings : List ViewingRow :=
  [ { date := some (toLex (2024, toLex (1, 5))), programme := "Show A".data,
      territory := "UK".data, channel := 101, viewers := some 1000 }
  , { date := some (toLex (2024, toLex (1, 20))), programme := "Show A".data,
      territory := "UK".data, channel := 101, viewers := some 500 } ]

/-- The producer row of the spec's scenario. -/
def c7Producers : List ProducerRow :=
  [ { programme := "Show A".data, producer := "Acme".data } ]

/-- Viewing rows exhibiting the `Top_Programme` divergence: the row with the
most viewers (10) airs "Alpha", while the lexicographically greatest
programme text of the group is "Beta". -/
def c1Viewings : List ViewingRow :=
  [ { date := some (toLex (2024, toLex (1, 5))), programme := "Alpha".data,
      territory := "UK".data, channel := 1, viewers := some 10 }
  , { date := some (toLex (2024, toLex (1, 6))), programme := "Beta".data,
      territory := "UK".data, channel := 1, viewers := some 5 } ]

/-- Producer rows mapping both programmes of `c1Viewings` to one producer. -/
def c1Producers : List ProducerRow :=
  [ { programme := "Alpha".data, producer := "P".data }
  , { programme := "Beta".data, producer := "P".data } ]

/-- Two viewing rows of one producer in consecutive months: the producer's
running total grows from 10 to 15 across its two summary records. -/
def c6Viewings : List ViewingRow :=
  [ { date := some (toLex (2024, toLex (1, 1))), programme := "A".data,
      territory := "UK".data, channel := 1, viewers := some 10 }
  , { date := some (toLex (2024, toLex (2, 1))), programme := "A".data,
      territory := "UK".data, channel := 1, viewers := some 5 } ]

/-- The producer row for `c6Viewings`. -/
def c6Producers : List ProducerRow :=
  [ { programme := "A".data, producer := "P".data } ]

/-!  Basic facts about keys, groups and the shape of the aggregate. -/

lemma keysOf_sorted (rows : List JoinedRow) : List.Sorted (· ≤ ·) (keysOf rows) :=
  List.sorted_insertionSort _ _

lemma keysOf_nodup (rows : List JoinedRow) : (keysOf rows).Nodup :=
  (List.perm_insertionSort _ _).nodup_iff.mpr (List.nodup_dedup _)

lemma mem_keysOf {rows : List JoinedRow} {k : Key} :
    k ∈ keysOf rows ↔ ∃ r ∈ rows, keyOf r = some k := by
  unfold keysOf
  rw [(List.perm_insertionSort _ _).mem_iff, List.mem_dedup, List.mem_filterMap]

lemma keysOf_congr {l₁ l₂ : List JoinedRow} (h : l₁.Perm l₂) : keysOf l₁ = keysOf l₂ := by
  refine List.eq_of_perm_of_sorted ?_ (keysOf_sorted _) (keysOf_sorted _)
  exact ((List.perm_insertionSort _ _).trans ((h.filterMap keyOf).dedup)).trans
    (List.perm_insertionSort _ _).symm

lemma keysOf_sortValues (rows : List JoinedRow) : keysOf (sortValues rows) = keysOf rows :=
  keysOf_congr (List.perm_insertionSort _ _)

lemma mkSummary_key (rows : List JoinedRow) (k : Key) : (mkSummary rows k).key = k := rfl

lemma combineRow_key (s : SummaryRow) (c : Nat) : (combineRow s c).key = s.key := rfl

lemma mkFinal_key (rows : List JoinedRow) (k : Key) : (mkFinal rows k).key = k := rfl

lemma filter_key_map {ks : List Key} (g : Key → Nat) {k : Key} (hnd : ks.Nodup)
    (hk : k ∈ ks) :
    ((ks.map fun j => (j, g j)).filter fun c => decide (c.1 = k)) = [(k, g k)] := by
  induction ks with
  | nil => cases hk
  | cons a t ih =>
    rw [List.map_cons, List.filter_cons]
    rcases List.mem_cons.1 hk with rfl | hk'
    · have : ∀ c ∈ t.map fun j => (j, g j), ¬ (decide (c.1 = k) = true) := by
        intro c hc
        obtain ⟨j, hj, rfl⟩ := List.mem_map.1 hc
        simp only [decide_eq_true_eq]
        rintro rfl
        exact (List.nodup_cons.1 hnd).1 hj
      simp only [decide_eq_true_eq, if_pos rfl]
      rw [List.filter_eq_nil_iff.2 this]
      simp
    · have hne : a ≠ k := by
        rintro rfl
        exact (List.nodup_cons.1 hnd).1 hk'
      simp only [decide_eq_true_eq, if_neg hne]
      exact ih (List.nodup_cons.1 hnd).2 hk'

lemma flatMap_inner_merge {ks₀ : List Key} (F : Key → SummaryRow) (g : Key → Nat)
    (hF : ∀ k, (F k).key = k) (hnd : ks₀.Nodup) :
    ∀ ks : List Key, (∀ k ∈ ks, k ∈ ks₀) →
      ((ks.map F).flatMap fun s =>
          ((ks₀.map fun j => (j, g j)).filter fun c => decide (c.1 = s.key)).map
            fun c => combineRow s c.2)
        = ks.map fun k => combineRow (F k) (g k) := by
  intro ks
  induction ks with
  | nil => intro; rfl
  | cons a t ih =>
    intro hsub
    rw [List.map_cons, List.flatMap_cons, hF a,
      filter_key_map g hnd (hsub a (List.mem_cons_self a t)), ih fun k hk =>
        hsub k (List.mem_cons_of_mem a hk)]
    rfl

lemma aggregate_data_eq (rows : List JoinedRow) :
    aggregate_data rows = (keysOf rows).map (mkFinal rows) := by
  simp only [aggregate_data, summaryRows, cumulativeRows]
  rw [keysOf_sortValues]
  exact flatMap_inner_merge (mkSummary rows) _ (mkSummary_key rows) (keysOf_nodup rows)
    (keysOf rows) (fun _ hk => hk)

lemma processPipeline_eq (ps : List ProducerRow) (vs : List ViewingRow) :
    processPipeline ps vs =
      (keysOf (merge_data ps (preprocess_data vs))).map
        (mkFinal (merge_data ps (preprocess_data vs))) :=
  aggregate_data_eq _

/-!  Case analysis on the rows of the outer join. -/

lemma merged_cases {ps : List ProducerRow} {vs : List NormRow} {j : JoinedRow}
    (hj : j ∈ merge_data ps vs) :
    (∃ p ∈ ps, ∃ v ∈ vs, v.programme = p.programme ∧ j = fillProducer (matchRow p v)) ∨
    (∃ p ∈ ps, j = fillProducer (producerOnlyRow p)) ∨
    (∃ v ∈ vs, j = fillProducer (unmatchedViewingRow v)) := by
  obtain ⟨m, hm, rfl⟩ := List.mem_map.1 hj
  rcases List.mem_append.1 hm with hm | hm
  · obtain ⟨p, hp, hpm⟩ := List.mem_flatMap.1 hm
    by_cases he : (vs.filter fun v => decide (v.programme = p.programme)).isEmpty
    · rw [if_pos he] at hpm
      rcases List.mem_singleton.1 hpm with rfl
      exact Or.inr (Or.inl ⟨p, hp, rfl⟩)
    · rw [if_neg he] at hpm
      obtain ⟨v, hv, rfl⟩ := List.mem_map.1 hpm
      obtain ⟨hv', hveq⟩ := List.mem_filter.1 hv
      exact Or.inl ⟨p, hp, v, hv', of_decide_eq_true hveq, rfl⟩
  · obtain ⟨v, hv, rfl⟩ := List.mem_map.1 hm
    exact Or.inr (Or.inr ⟨v, (List.mem_filter.1 hv).1, rfl⟩)

lemma mem_merge_of_view {ps : List ProducerRow} {vs : List NormRow} {v : NormRow}
    (hv : v ∈ vs) :
    (∃ p ∈ ps, p.programme = v.programme ∧ fillProducer (matchRow p v) ∈ merge_data ps vs) ∨
    ((∀ p ∈ ps, p.programme ≠ v.programme) ∧
      fillProducer (unmatchedViewingRow v) ∈ merge_data ps vs) := by
  by_cases hm : ∃ p ∈ ps, p.programme = v.programme
  · obtain ⟨p, hp, hpeq⟩ := hm
    refine Or.inl ⟨p, hp, hpeq, List.mem_map_of_mem _ ?_⟩
    refine List.mem_append.2 (Or.inl (List.mem_flatMap.2 ⟨p, hp, ?_⟩))
    have hvm : v ∈ vs.filter fun w => decide (w.programme = p.programme) :=
      List.mem_filter.2 ⟨hv, decide_eq_true hpeq.symm⟩
    rw [if_neg (by
      intro he
      rw [List.isEmpty_iff] at he
      rw [he] at hvm
      cases hvm)]
    exact List.mem_map_of_mem _ hvm
  · push_neg at hm
    refine Or.inr ⟨hm, List.mem_map_of_mem _ ?_⟩
    refine List.mem_append.2 (Or.inr (List.mem_map_of_mem _ (List.mem_filter.2 ⟨hv, ?_⟩)))
    simp only [Bool.not_eq_true', List.any_eq_false, decide_eq_false_iff_not]
    intro p hp
    simpa using hm p hp

lemma merged_producer {ps : List ProducerRow} {vs : List NormRow} {j : JoinedRow}
    (hj : j ∈ merge_data ps vs) :
    j.producer = "Unknown".data ∨ ∃ p ∈ ps, j.producer = p.producer := by
  rcases merged_cases hj with ⟨p, hp, v, _, _, rfl⟩ | ⟨p, hp, rfl⟩ | ⟨v, _, rfl⟩
  · exact Or.inr ⟨p, hp, rfl⟩
  · exact Or.inr ⟨p, hp, rfl⟩
  · exact Or.inl rfl

lemma merged_viewers_of_key {ps : List ProducerRow} {vs : List NormRow} {j : JoinedRow}
    (hj : j ∈ merge_data ps vs) (hk : keyOf j ≠ none) : ∃ n, j.viewers = some n := by
  rcases merged_cases hj with ⟨p, _, v, _, _, rfl⟩ | ⟨p, _, rfl⟩ | ⟨v, _, rfl⟩
  · exact ⟨v.viewers, rfl⟩
  · exact absurd rfl hk
  · exact ⟨v.viewers, rfl⟩

lemma merged_channel_month {ps : List ProducerRow} {vs : List NormRow} {j : JoinedRow}
    (hj : j ∈ merge_data ps vs) (hc : j.channel = none) : j.month = none := by
  rcases merged_cases hj with ⟨p, _, v, _, _, rfl⟩ | ⟨p, _, rfl⟩ | ⟨v, _, rfl⟩
  · cases hc
  · rfl
  · cases hc

lemma merged_month_some {ps : List ProducerRow} {vs : List NormRow} {j : JoinedRow}
    (hj : j ∈ merge_data ps vs) {m : Month} (hm : j.month = some m) :
    ∃ v ∈ vs, v.month = some m := by
  rcases merged_cases hj with ⟨p, _, v, hv, _, rfl⟩ | ⟨p, _, rfl⟩ | ⟨v, hv, rfl⟩
  · exact ⟨v, hv, hm⟩
  · cases hm
  · exact ⟨v, hv, hm⟩

/-!  Claim theorems (first group). -/

/-- C7: on the scenario input --- viewing rows (2024-01-05, "Show A", "UK",
101, 1000) and (2024-01-20, "Show A", "UK", 101, 500) and the producer row
("Show A", "Acme") --- the pipeline emits exactly one record:
(Producer="Acme", Month="2024-01", Channel=101, Top_Programme="Show A",
Highest_Viewers=1000, Sum_of_Viewers=1500, Cumulative_Viewers=1500). -/
theorem C7_scenario :
    pipelineOutput c7Producers c7Viewings =
      [ { producer := "Acme".data, month := "2024-01".data, channel := 101,
          top_programme := "Show A".data, highest_viewers := 1000,
          sum_of_viewers := 1500, cumulative_viewers := 1500 } ] := by decide

/-- C1: the emitted `Top_Programme` is not the programme of the row attaining
the maximum `Viewers`.  At this input the unique max-viewers row of the only
group airs "Alpha" (10 viewers against 5), yet the pipeline emits
`Top_Programme = "Beta"`: the named aggregation
`Top_Programme=('Programme', lambda x: x.loc[x.idxmax()])` hands the lambda
the group's `Programme` column itself, so `idxmax` picks the row attaining
the maximum of the programme text, not of the viewers. -/
theorem C1_top_programme_code_behavior :
    (processPipeline c1Producers c1Viewings).map (fun f => f.top_programme) = ["Beta".data] ∧
    ∀ r ∈ merge_data c1Producers (preprocess_data c1Viewings),
      (∀ q ∈ merge_data c1Producers (preprocess_data c1Viewings), viewersD q ≤ viewersD r) →
        r.programme = "Alpha".data := by decide

/-- C3: every normalized viewing row yields at least one joined row carrying
its cells; a viewing row whose programme matches no producer row gets
Producer = "Unknown"; and every joined row's producer is either "Unknown" or
a value of the producer table, never null. -/
theorem C3_join_completeness (ps : List ProducerRow) (vs : List NormRow) :
    (∀ v ∈ vs, ∃ j ∈ merge_data ps vs,
      j.programme = v.programme ∧ j.date = v.date ∧ j.month = v.month ∧
      j.territory = some v.territory ∧ j.channel = some v.channel ∧
      j.viewers = some v.viewers ∧
      ((∀ p ∈ ps, p.programme ≠ v.programme) → j.producer = "Unknown".data)) ∧
    (∀ j ∈ merge_data ps vs,
      j.producer = "Unknown".data ∨ ∃ p ∈ ps, j.producer = p.producer) := by
  constructor
  · intro v hv
    rcases @mem_merge_of_view ps vs v hv with ⟨p, hp, hpeq, hmem⟩ | ⟨hno, hmem⟩
    · refine ⟨_, hmem, hpeq, rfl, rfl, rfl, rfl, rfl, ?_⟩
      intro hall
      exact absurd hpeq (hall p hp)
    · exact ⟨_, hmem, rfl, rfl, rfl, rfl, rfl, rfl, fun _ => rfl⟩
  · intro j hj
    exact merged_producer hj

/-- C4 (counterexample): a viewing table lacking only the `Viewers` column
passes the Normalizer --- `preprocess_data` reads `Date`, `Programme` and
`Territory` but its `fillna({'Viewers': 0})` silently ignores dictionary
keys that are not columns --- so the Normalizer stage does not fail, contrary
to the claim. -/
theorem C4_counterexample :
    preprocessCols ["Date", "Programme", "Territory", "Channel"] =
      .ok ["Date", "Programme", "Territory", "Channel", "Month"] := rfl

/-- C4 (amended): a viewing table missing `Date`, `Programme` or `Territory`
makes the Normalizer fail with `SchemaMismatch`; a viewing table carrying
those columns and `Channel` but lacking `Viewers` passes the Normalizer and
instead fails with `SchemaMismatch("Viewers")` in the Aggregator --- in every
case before any output is written (the schema run never reaches `.ok`). -/
theorem C4_schema_mismatch (vcols : List String) :
    (("Date" ∉ vcols ∨ "Programme" ∉ vcols ∨ "Territory" ∉ vcols) →
      ∃ c, preprocessCols vcols = .error (.schemaMismatch c)) ∧
    ("Date" ∈ vcols → "Programme" ∈ vcols → "Territory" ∈ vcols → "Channel" ∈ vcols →
      "Viewers" ∉ vcols →
      (∃ cols, preprocessCols vcols = .ok cols) ∧
      pipelineSchema producerCols vcols = .error (.schemaMismatch "Viewers")) := by
  constructor
  · intro h
    unfold preprocessCols
    by_cases hD : "Date" ∈ vcols
    · rw [if_neg (by simpa using hD)]
      by_cases hP : "Programme" ∈ vcols
      · rw [if_neg (by simpa using hP)]
        have hT : "Territory" ∉ vcols := by tauto
        rw [if_pos hT]
        exact ⟨_, rfl⟩
      · rw [if_pos hP]
        exact ⟨_, rfl⟩
    · rw [if_pos hD]
      exact ⟨_, rfl⟩
  · intro hD hP hT hC hV
    have h1 : preprocessCols vcols = .ok (vcols ++ ["Month"]) := by
      unfold preprocessCols
      rw [if_neg (by simpa using hD), if_neg (by simpa using hP), if_neg (by simpa using hT)]
    refine ⟨⟨_, h1⟩, ?_⟩
    have h2 : mergeCols producerCols (vcols ++ ["Month"]) =
        .ok (producerCols ++ (vcols ++ ["Month"]).filter fun c => decide (c ≠ "Programme")) := by
      unfold mergeCols
      rw [if_neg (by decide), if_neg (by simp [hP])]
    have hmem : ∀ c : String, c ∈ vcols ∨ c = "Month" → c ≠ "Programme" →
        c ∈ producerCols ++ (vcols ++ ["Month"]).filter fun c => decide (c ≠ "Programme") := by
      intro c hc hne
      refine List.mem_append.2 (Or.inr (List.mem_filter.2 ⟨?_, by simpa using hne⟩))
      rcases hc with hc | rfl
      · exact List.mem_append.2 (Or.inl hc)
      · exact List.mem_append.2 (Or.inr (List.mem_singleton.2 rfl))
    have hVm : "Viewers" ∉ producerCols ++ (vcols ++ ["Month"]).filter
        fun c => decide (c ≠ "Programme") := by
      intro hmem'
      rcases List.mem_append.1 hmem' with h | h
      · simp [producerCols] at h
      · rcases List.mem_append.1 (List.mem_filter.1 h).1 with h' | h'
        · exact hV h'
        · simp at h'
    have h3 : aggregateCols
        (producerCols ++ (vcols ++ ["Month"]).filter fun c => decide (c ≠ "Programme")) =
        .error (.schemaMismatch "Viewers") := by
      unfold aggregateCols
      rw [if_neg (by simp [producerCols]),
        if_neg fun hno => hno (hmem "Month" (Or.inr rfl) (by decide)),
        if_neg fun hno => hno (hmem "Channel" (Or.inl hC) (by decide)),
        if_neg (by simp [producerCols]),
        if_pos hVm]
    simp only [pipelineSchema, h1, h2, h3]

/-- C4 witness: at the concrete column sets, a table missing `Date` fails in
the Normalizer, and a table missing only `Viewers` passes the Normalizer but
aborts the pipeline with `SchemaMismatch("Viewers")`. -/
theorem C4_schema_mismatch_witness :
    (∃ c, preprocessCols ["Programme", "Territory", "Channel", "Viewers"] =
      .error (.schemaMismatch c)) ∧
    ((∃ cols, preprocessCols ["Date", "Programme", "Territory", "Channel"] = .ok cols) ∧
      pipelineSchema producerCols ["Date", "Programme", "Territory", "Channel"] =
        .error (.schemaMismatch "Viewers")) :=
  ⟨(C4_schema_mismatch _).1 (Or.inl (by decide)),
   (C4_schema_mismatch _).2 (by decide) (by decide) (by decide) (by decide) (by decide)⟩

lemma map_key_processPipeline (ps : List ProducerRow) (vs : List ViewingRow) :
    (processPipeline ps vs).map FinalRow.key =
      keysOf (merge_data ps (preprocess_data vs)) := by
  rw [processPipeline_eq, List.map_map]
  have h : (FinalRow.key ∘ mkFinal (merge_data ps (preprocess_data vs))) = id :=
    funext fun k => mkFinal_key _ k
  rw [h, List.map_id]

/-- C5: the keys of the emitted records are pairwise distinct, and a
(Producer, Month, Channel) combination is a key of some emitted record
exactly when some joined row carries it --- one SummaryRecord per distinct
key present in the joined data. -/
theorem C5_key_uniqueness (ps : List ProducerRow) (vs : List ViewingRow) :
    ((processPipeline ps vs).map FinalRow.key).Nodup ∧
    ∀ k : Key, (∃ r ∈ merge_data ps (preprocess_data vs), keyOf r = some k) ↔
      ∃ f ∈ processPipeline ps vs, f.key = k := by
  constructor
  · rw [map_key_processPipeline]
    exact keysOf_nodup _
  · intro k
    rw [← mem_keysOf, processPipeline_eq]
    constructor
    · intro hk
      exact ⟨mkFinal _ k, List.mem_map_of_mem _ hk, mkFinal_key _ _⟩
    · rintro ⟨f, hf, rfl⟩
      obtain ⟨j, hj, rfl⟩ := List.mem_map.1 hf
      rw [mkFinal_key]
      exact hj

/-- C10: the emitted records are in strictly ascending lexicographic order of
(Producer, Month, Channel) --- the grouped aggregate lists its sorted keys
and the final inner merge keeps that order --- and serialization maps the
records one-to-one in that order. -/
theorem C10_output_order (ps : List ProducerRow) (vs : List ViewingRow) :
    List.Sorted (· < ·) ((processPipeline ps vs).map FinalRow.key) ∧
    pipelineOutput ps vs = (processPipeline ps vs).map serializeRow := by
  refine ⟨?_, rfl⟩
  rw [map_key_processPipeline]
  exact (keysOf_sorted _).lt_of_le (keysOf_nodup _)

/-!  The running-total machinery of the cumulative aggregate. -/

lemma lookupD_nil (p : Str) : lookupD [] p = 0 := rfl

lemma lookupD_cons (q : Str) (t : Nat) (acc : List (Str × Nat)) (p : Str) :
    lookupD ((q, t) :: acc) p = if q = p then t else lookupD acc p := by
  rcases eq_or_ne q p with rfl | h
  · unfold lookupD
    rw [List.find?_cons_of_pos _ (by simp)]
    simp
  · unfold lookupD
    rw [List.find?_cons_of_neg _ (by simp [h]), if_neg h]

lemma prodSum_nil (p : Str) : prodSum p [] = 0 := rfl

lemma prodSum_cons (p : Str) (r : JoinedRow) (l : List JoinedRow) :
    prodSum p (r :: l) = (if r.producer = p then viewersD r else 0) + prodSum p l := by
  unfold prodSum
  by_cases h : r.producer = p
  · simp [List.filter_cons, h]
  · simp [List.filter_cons, h]

lemma prodSum_append (p : Str) (l₁ l₂ : List JoinedRow) :
    prodSum p (l₁ ++ l₂) = prodSum p l₁ + prodSum p l₂ := by
  unfold prodSum
  rw [List.filter_append, List.map_append, List.sum_append]

lemma lookupD_accState (l : List JoinedRow) :
    ∀ (acc : List (Str × Nat)) (p : Str),
      lookupD (accState acc l) p = lookupD acc p + prodSum p l := by
  induction l with
  | nil => intro acc p; simp [accState, prodSum_nil]
  | cons r rs ih =>
    intro acc p
    rcases hv : r.viewers with _ | v
    · simp only [accState, hv]
      rw [ih, prodSum_cons]
      have : viewersD r = 0 := by simp [viewersD, hv]
      rw [this]
      simp
    · simp only [accState, hv]
      rw [ih, lookupD_cons, prodSum_cons]
      have : viewersD r = v := by simp [viewersD, hv]
      rw [this]
      by_cases h : r.producer = p
      · rw [if_pos h, if_pos h, Nat.add_assoc, h]
      · rw [if_neg h, if_neg h, Nat.zero_add]

lemma cumGo_append (l₁ l₂ : List JoinedRow) :
    ∀ acc : List (Str × Nat),
      cumGo acc (l₁ ++ l₂) = cumGo acc l₁ ++ cumGo (accState acc l₁) l₂ := by
  induction l₁ with
  | nil => intro acc; rfl
  | cons r rs ih =>
    intro acc
    rcases hv : r.viewers with _ | v
    · simp only [List.cons_append, cumGo, hv, accState, List.append_eq, ih]
    · simp only [List.cons_append, cumGo, hv, accState, List.append_eq, ih]

lemma cumGo_fst (l : List JoinedRow) :
    ∀ acc : List (Str × Nat), (cumGo acc l).map Prod.fst = l := by
  induction l with
  | nil => intro acc; rfl
  | cons r rs ih =>
    intro acc
    rcases hv : r.viewers with _ | v
    · simp only [cumGo, hv, List.map_cons, ih]
    · simp only [cumGo, hv, List.map_cons, ih]

lemma fst_mem_of_mem_cumGo {l : List JoinedRow} {acc : List (Str × Nat)}
    {x : JoinedRow × Option Nat} (hx : x ∈ cumGo acc l) : x.1 ∈ l := by
  have := List.mem_map_of_mem Prod.fst hx
  rwa [cumGo_fst] at this

lemma cumGo_lower (l : List JoinedRow) :
    ∀ (acc : List (Str × Nat)), ∀ x ∈ cumGo acc l, ∀ t, x.2 = some t →
      lookupD acc x.1.producer ≤ t := by
  induction l with
  | nil => intro acc x hx; cases hx
  | cons r rs ih =>
    intro acc x hx t ht
    rcases hv : r.viewers with _ | v
    · rw [cumGo, hv] at hx
      rcases List.mem_cons.1 hx with rfl | hx'
      · cases ht
      · exact ih acc x hx' t ht
    · rw [cumGo, hv] at hx
      rcases List.mem_cons.1 hx with rfl | hx'
      · cases ht
        exact Nat.le_add_right _ _
      · have h1 := ih _ x hx' t ht
        refine le_trans ?_ h1
        rw [lookupD_cons]
        by_cases h : r.producer = x.1.producer
        · rw [if_pos h, ← h]
          exact Nat.le_add_right _ _
        · rw [if_neg h]

lemma cumGo_pairwise (l : List JoinedRow) :
    ∀ acc : List (Str × Nat),
      (cumGo acc l).Pairwise fun x y =>
        x.1.producer = y.1.producer → ∀ s ∈ x.2, ∀ t ∈ y.2, s ≤ t := by
  induction l with
  | nil => intro acc; exact List.Pairwise.nil
  | cons r rs ih =>
    intro acc
    rcases hv : r.viewers with _ | v
    · rw [cumGo, hv]
      refine List.pairwise_cons.2 ⟨?_, ih acc⟩
      intro y _ _ s hs
      cases hs
    · rw [cumGo, hv]
      refine List.pairwise_cons.2 ⟨?_, ih _⟩
      intro y hy hpy s hs t ht
      cases hs
      have h1 := cumGo_lower rs _ y hy t ht
      rw [← hpy, lookupD_cons, if_pos rfl] at h1
      exact h1

/-!  Folded maxima of non-decreasing lists. -/

lemma le_foldl_max (l : List Nat) : ∀ a : Nat, a ≤ l.foldl max a := by
  induction l with
  | nil => intro a; exact le_refl a
  | cons x t ih =>
    intro a
    exact le_trans (Nat.le_max_left a x) (ih (max a x))

lemma mem_le_foldl_max {l : List Nat} {x : Nat} (hx : x ∈ l) :
    ∀ a : Nat, x ≤ l.foldl max a := by
  induction l with
  | nil => cases hx
  | cons y t ih =>
    intro a
    rcases List.mem_cons.1 hx with rfl | hx'
    · exact le_trans (Nat.le_max_right a x) (le_foldl_max t _)
    · exact ih hx' _

lemma foldl_max_le {l : List Nat} {b : Nat} (h : ∀ x ∈ l, x ≤ b) :
    ∀ a, a ≤ b → l.foldl max a ≤ b := by
  induction l with
  | nil => intro a ha; exact ha
  | cons x t ih =>
    intro a ha
    exact ih (fun y hy => h y (List.mem_cons_of_mem x hy)) _
      (max_le ha (h x (List.mem_cons_self x t)))

/-!  Locating the last row of a group in the sorted table. -/

lemma exists_last_split {α : Type} (q : α → Bool) (l : List α) :
    (∃ x ∈ l, q x = true) →
      ∃ pre post, l = pre ++ post ∧ (∀ x ∈ post, q x = false) ∧
        ∃ h : pre ≠ [], q (pre.getLast h) = true := by
  induction l using List.reverseRecOn with
  | nil => rintro ⟨x, hx, _⟩; cases hx
  | append_singleton l a ih =>
    intro hex
    by_cases ha : q a = true
    · refine ⟨l ++ [a], [], by simp, by simp, by simp, ?_⟩
      rw [List.getLast_concat]
      exact ha
    · obtain ⟨x, hx, hqx⟩ := hex
      rcases List.mem_append.1 hx with hx' | hx'
      · obtain ⟨pre, post, heq, hpost, hne, hlast⟩ := ih ⟨x, hx', hqx⟩
        refine ⟨pre, post ++ [a], by rw [heq, List.append_assoc], ?_, hne, hlast⟩
        intro y hy
        rcases List.mem_append.1 hy with hy' | hy'
        · exact hpost y hy'
        · rw [List.mem_singleton.1 hy']
          exact Bool.not_eq_true _ ▸ (by simpa using ha)
      · rw [List.mem_singleton.1 hx'] at hqx
        exact absurd hqx ha

/-!  Keys, sort keys and the nulls-last ordering. -/

@[simp] lemma optTop_some {α : Type} (a : α) : optTop (some a) = (a : WithTop α) := rfl

@[simp] lemma optTop_none {α : Type} : optTop (none : Option α) = (⊤ : WithTop α) := rfl

lemma keyOf_eq_none_iff (r : JoinedRow) :
    keyOf r = none ↔ r.month = none ∨ r.channel = none := by
  rcases hm : r.month with _ | m <;> rcases hc : r.channel with _ | c <;>
    simp [keyOf, hm, hc]

lemma keyOf_eq_some {r : JoinedRow} {k : Key} (h : keyOf r = some k) :
    r.producer = keyProducer k ∧ r.month = some (keyMonth k) ∧
      r.channel = some (keyChannel k) := by
  rcases hm : r.month with _ | m <;> rcases hc : r.channel with _ | c <;>
      simp only [keyOf, hm, hc] at h
  · exact Option.noConfusion h
  · exact Option.noConfusion h
  · exact Option.noConfusion h
  · rw [Option.some_inj] at h
    subst h
    exact ⟨rfl, rfl, rfl⟩

lemma key_lt_cases {k₁ k₂ : Key} (h : k₁ < k₂) :
    keyProducer k₁ < keyProducer k₂ ∨
      (keyProducer k₁ = keyProducer k₂ ∧
        (keyMonth k₁ < keyMonth k₂ ∨
          (keyMonth k₁ = keyMonth k₂ ∧ keyChannel k₁ < keyChannel k₂))) := by
  rcases (Prod.Lex.lt_iff (ofLex k₁) (ofLex k₂)).1 h with h1 | ⟨he, h2⟩
  · exact Or.inl h1
  · exact Or.inr ⟨he, (Prod.Lex.lt_iff (ofLex (ofLex k₁).2) (ofLex (ofLex k₂).2)).1 h2⟩

lemma sortKey_lt_of_key_lt {r₁ r₂ : JoinedRow} {k₁ k₂ : Key}
    (h₁ : keyOf r₁ = some k₁) (h₂ : keyOf r₂ = some k₂) (hk : k₁ < k₂) :
    sortKey r₁ < sortKey r₂ := by
  obtain ⟨hp₁, hm₁, hc₁⟩ := keyOf_eq_some h₁
  obtain ⟨hp₂, hm₂, hc₂⟩ := keyOf_eq_some h₂
  unfold sortKey
  rw [hp₁, hp₂, hm₁, hm₂, hc₁, hc₂]
  rcases key_lt_cases hk with h | ⟨hpe, h | ⟨hme, hce⟩⟩
  · exact (Prod.Lex.lt_iff _ _).2 (Or.inl h)
  · refine (Prod.Lex.lt_iff _ _).2 (Or.inr ⟨hpe, (Prod.Lex.lt_iff _ _).2 (Or.inl ?_)⟩)
    exact WithTop.coe_lt_coe.2 h
  · refine (Prod.Lex.lt_iff _ _).2 (Or.inr ⟨hpe, (Prod.Lex.lt_iff _ _).2
      (Or.inr ⟨by rw [hme], (Prod.Lex.lt_iff _ _).2 (Or.inl ?_)⟩)⟩)
    simpa using WithTop.coe_lt_coe.2 hce

lemma sortKey_lt_of_month_none {r s : JoinedRow} {k : Key}
    (hs : keyOf s = some k) (hrp : r.producer = keyProducer k) (hrm : r.month = none) :
    sortKey s < sortKey r := by
  obtain ⟨hp, hm, _⟩ := keyOf_eq_some hs
  unfold sortKey
  rw [hp, hm, hrp, hrm]
  refine (Prod.Lex.lt_iff _ _).2 (Or.inr ⟨rfl, (Prod.Lex.lt_iff _ _).2 (Or.inl ?_)⟩)
  exact WithTop.coe_lt_top (keyMonth k)

lemma sortValues_perm (rows : List JoinedRow) : (sortValues rows).Perm rows :=
  List.perm_insertionSort _ _

lemma sortValues_sorted (rows : List JoinedRow) : List.Sorted rowLe (sortValues rows) :=
  List.sorted_insertionSort _ _

/-- The decomposition of the sorted, cumulatively-annotated table at the last
row of the group of `k`: everything after that row has a different key, the
row's running total `t` is the group's `Cumulative_Viewers`, and `t` is the
sum of the viewers of the key's producer over the whole sorted prefix ending
at that row (months and channels of that producer included --- the running
total is never reset). -/
lemma cum_decomp (rows : List JoinedRow)
    (hv : ∀ r ∈ rows, keyOf r ≠ none → r.viewers ≠ none)
    (k : Key) (hk : k ∈ keysOf rows) :
    ∃ pre' a post t,
      sortValues rows = pre' ++ a :: post ∧
      keyOf a = some k ∧
      (∀ x ∈ post, keyOf x ≠ some k) ∧
      withCum (sortValues rows) =
        cumGo [] pre' ++ (a, some t) :: cumGo ((a.producer, t) :: accState [] pre') post ∧
      cumMax (withCum (sortValues rows)) k = t ∧
      t = prodSum (keyProducer k) (pre' ++ [a]) ∧
      groupCums rows k =
        (((cumGo [] pre').filter fun rc => decide (keyOf rc.1 = some k)).filterMap
          fun rc => rc.2) ++ [t] := by
  obtain ⟨r0, hr0, hkr0⟩ := mem_keysOf.1 hk
  have hr0s : r0 ∈ sortValues rows := (sortValues_perm rows).mem_iff.2 hr0
  obtain ⟨pre, post, heq, hpost, hne, hlast⟩ :=
    exists_last_split (fun r => decide (keyOf r = some k)) (sortValues rows)
      ⟨r0, hr0s, decide_eq_true hkr0⟩
  have hpostk : ∀ x ∈ post, keyOf x ≠ some k := fun x hx =>
    of_decide_eq_false (hpost x hx)
  set a := pre.getLast hne with ha
  have hpre : pre.dropLast ++ [a] = pre := List.dropLast_append_getLast hne
  have hka : keyOf a = some k := of_decide_eq_true hlast
  have hpa : a.producer = keyProducer k := (keyOf_eq_some hka).1
  have has : a ∈ sortValues rows := by
    rw [heq]
    exact List.mem_append.2 (Or.inl (List.getLast_mem hne))
  obtain ⟨v, hvv⟩ : ∃ v, a.viewers = some v := by
    have h1 := hv a ((sortValues_perm rows).mem_iff.1 has) (by rw [hka]; simp)
    rcases hav : a.viewers with _ | v
    · exact absurd hav h1
    · exact ⟨v, rfl⟩
  have heq' : sortValues rows = pre.dropLast ++ a :: post := by
    rw [heq]
    nth_rewrite 1 [← hpre]
    rw [List.append_assoc, List.singleton_append]
  set t := lookupD (accState [] pre.dropLast) a.producer + v with htdef
  have hwc : withCum (sortValues rows) =
      cumGo [] pre.dropLast ++ (a, some t) ::
        cumGo ((a.producer, t) :: accState [] pre.dropLast) post := by
    rw [withCum, heq', cumGo_append]
    congr 1
    simp only [cumGo, hvv]
  have htp : t = prodSum (keyProducer k) (pre.dropLast ++ [a]) := by
    rw [htdef, lookupD_accState, lookupD_nil, Nat.zero_add, prodSum_append, prodSum_cons,
      prodSum_nil, hpa, if_pos rfl]
    have hva : viewersD a = v := by simp [viewersD, hvv]
    rw [hva, Nat.add_zero]
  have hpostfilter : (cumGo ((a.producer, t) :: accState [] pre.dropLast) post).filter
      (fun rc => decide (keyOf rc.1 = some k)) = [] :=
    List.filter_eq_nil_iff.2 fun x hx => by
      simpa using hpostk x.1 (fst_mem_of_mem_cumGo hx)
  have hfilter : (withCum (sortValues rows)).filter (fun rc => decide (keyOf rc.1 = some k)) =
      ((cumGo [] pre.dropLast).filter fun rc => decide (keyOf rc.1 = some k)) ++ [(a, some t)] := by
    rw [hwc, List.filter_append, List.filter_cons, if_pos (decide_eq_true hka), hpostfilter]
  have hcum : cumMax (withCum (sortValues rows)) k = t := by
    have hmem_le : ∀ s ∈ ((cumGo [] pre.dropLast).filter
        fun rc => decide (keyOf rc.1 = some k)).filterMap (fun rc => rc.2), s ≤ t := by
      intro s hs
      obtain ⟨x, hx, hx2⟩ := List.mem_filterMap.1 hs
      have hxf := List.mem_filter.1 hx
      have hxkey : keyOf x.1 = some k := of_decide_eq_true hxf.2
      have hpw : (cumGo [] (sortValues rows)).Pairwise fun x y =>
          x.1.producer = y.1.producer → ∀ s ∈ x.2, ∀ u ∈ y.2, s ≤ u :=
        cumGo_pairwise _ []
      have hpw' := hpw
      rw [show cumGo [] (sortValues rows) = withCum (sortValues rows) from rfl, hwc] at hpw'
      obtain ⟨-, -, hcross⟩ := List.pairwise_append.1 hpw'
      exact hcross x hxf.1 (a, some t) (List.mem_cons_self _ _)
        (by rw [(keyOf_eq_some hxkey).1, hpa]) s (Option.mem_def.2 hx2) t rfl
    rw [cumMax, hfilter, List.filterMap_append, List.foldl_append]
    simp only [List.filterMap_cons, List.filterMap_nil, List.foldl_cons, List.foldl_nil]
    exact Nat.max_eq_right (foldl_max_le hmem_le 0 (Nat.zero_le t))
  have hgc : groupCums rows k =
      (((cumGo [] pre.dropLast).filter fun rc => decide (keyOf rc.1 = some k)).filterMap
        fun rc => rc.2) ++ [t] := by
    rw [groupCums, hfilter, List.filterMap_append]
    simp only [List.filterMap_cons, List.filterMap_nil]
  exact ⟨pre.dropLast, a, post, t, heq', hka, hpostk, hwc, hcum, htp, hgc⟩

lemma getLast_eq_of_concat {l c : List Nat} {t : Nat} (h : l = c ++ [t]) (hne : l ≠ []) :
    l.getLast hne = t := by
  subst h
  exact List.getLast_concat _

lemma mkFinal_producer (rows : List JoinedRow) (k : Key) :
    (mkFinal rows k).producer = keyProducer k := rfl

lemma mkFinal_cum (rows : List JoinedRow) (k : Key) :
    (mkFinal rows k).cumulative_viewers = cumMax (withCum (sortValues rows)) k := rfl

lemma merged_key_viewers {ps : List ProducerRow} {nvs : List NormRow} :
    ∀ r ∈ merge_data ps nvs, keyOf r ≠ none → r.viewers ≠ none := by
  intro r hr hk hvn
  obtain ⟨n, hn⟩ := merged_viewers_of_key hr hk
  rw [hn] at hvn
  cases hvn

/-- C2: for every key of the joined data, the emitted record's
`Cumulative_Viewers` equals the maximum per-producer running-sum value within
its (Producer, Month, Channel) group over the table sorted by (Producer,
Month, Channel, Date) with nulls last; it is the value at the group's last
row under that order, and equals the producer's viewer total over the whole
sorted prefix ending there --- the running sum is accumulated per producer
only and never reset at month or channel boundaries. -/
theorem C2_cumulative (ps : List ProducerRow) (vs : List ViewingRow) (k : Key)
    (hk : k ∈ keysOf (merge_data ps (preprocess_data vs))) :
    ∃ f ∈ processPipeline ps vs, f.key = k ∧
      f.cumulative_viewers =
        (groupCums (merge_data ps (preprocess_data vs)) k).foldl max 0 ∧
      (∃ h2 : groupCums (merge_data ps (preprocess_data vs)) k ≠ [],
        f.cumulative_viewers =
          (groupCums (merge_data ps (preprocess_data vs)) k).getLast h2) ∧
      ∃ pre post,
        sortValues (merge_data ps (preprocess_data vs)) = pre ++ post ∧
        (∀ x ∈ post, keyOf x ≠ some k) ∧
        (∃ hp : pre ≠ [], keyOf (pre.getLast hp) = some k) ∧
        f.cumulative_viewers = prodSum (keyProducer k) pre := by
  obtain ⟨pre', a, post, t, heq, hka, hpostk, hwc, hcum, htp, hgc⟩ :=
    cum_decomp _ merged_key_viewers k hk
  refine ⟨mkFinal _ k, ?_, mkFinal_key _ _, rfl, ?_, ?_⟩
  · rw [processPipeline_eq]
    exact List.mem_map_of_mem _ hk
  · have hne2 : groupCums (merge_data ps (preprocess_data vs)) k ≠ [] := by
      rw [hgc]
      simp
    exact ⟨hne2, by rw [getLast_eq_of_concat hgc hne2]; exact hcum⟩
  · refine ⟨pre' ++ [a], post, ?_, hpostk, ⟨by simp, ?_⟩, ?_⟩
    · rw [heq, List.append_assoc, List.singleton_append]
    · rw [List.getLast_concat]
      exact hka
    · rw [mkFinal_cum, hcum, htp]

/-- C2 witness: the scenario group ("Acme", 2024-01, 101) instantiates the
cumulative characterization. -/
theorem C2_cumulative_witness :
    ((toLex ("Acme".data, toLex ((toLex (2024, 1) : Month), (101 : Int))) : Key) ∈
      keysOf (merge_data c7Producers (preprocess_data c7Viewings))) ∧
    (∃ f ∈ processPipeline c7Producers c7Viewings,
      f.key = (toLex ("Acme".data, toLex ((toLex (2024, 1) : Month), (101 : Int))) : Key) ∧
      f.cumulative_viewers =
        (groupCums (merge_data c7Producers (preprocess_data c7Viewings))
          (toLex ("Acme".data, toLex ((toLex (2024, 1) : Month), (101 : Int))))).foldl max 0 ∧
      (∃ h2 : groupCums (merge_data c7Producers (preprocess_data c7Viewings))
          (toLex ("Acme".data, toLex ((toLex (2024, 1) : Month), (101 : Int)))) ≠ [],
        f.cumulative_viewers =
          (groupCums (merge_data c7Producers (preprocess_data c7Viewings))
            (toLex ("Acme".data, toLex ((toLex (2024, 1) : Month), (101 : Int))))).getLast h2) ∧
      ∃ pre post,
        sortValues (merge_data c7Producers (preprocess_data c7Viewings)) = pre ++ post ∧
        (∀ x ∈ post,
          keyOf x ≠ some (toLex ("Acme".data, toLex ((toLex (2024, 1) : Month), (101 : Int))))) ∧
        (∃ hp : pre ≠ [],
          keyOf (pre.getLast hp) =
            some (toLex ("Acme".data, toLex ((toLex (2024, 1) : Month), (101 : Int))))) ∧
        f.cumulative_viewers =
          prodSum (keyProducer
            (toLex ("Acme".data, toLex ((toLex (2024, 1) : Month), (101 : Int))))) pre) :=
  ⟨by decide, C2_cumulative c7Producers c7Viewings _ (by decide)⟩

lemma groupCums_le_of_lt (ps : List ProducerRow) (vs : List ViewingRow)
    {k₁ k₂ : Key} (hk₂ : k₂ ∈ keysOf (merge_data ps (preprocess_data vs)))
    (hlt : k₁ < k₂) (hpe : keyProducer k₁ = keyProducer k₂) :
    cumMax (withCum (sortValues (merge_data ps (preprocess_data vs)))) k₁ ≤
      cumMax (withCum (sortValues (merge_data ps (preprocess_data vs)))) k₂ := by
  obtain ⟨pre', a, post, t, heq, hka, hpostk, hwc, hcum, htp, hgc⟩ :=
    cum_decomp _ merged_key_viewers k₂ hk₂
  rw [hcum]
  have hle : ∀ s ∈ groupCums (merge_data ps (preprocess_data vs)) k₁, s ≤ t := by
    intro s hs
    obtain ⟨x, hx, hx2⟩ := List.mem_filterMap.1 hs
    have hxf := List.mem_filter.1 hx
    have hxkey : keyOf x.1 = some k₁ := of_decide_eq_true hxf.2
    have hxmem := hxf.1
    rw [hwc] at hxmem
    rcases List.mem_append.1 hxmem with hx1 | hx1
    · have hpw : (cumGo [] (sortValues (merge_data ps (preprocess_data vs)))).Pairwise
          fun x y => x.1.producer = y.1.producer → ∀ s ∈ x.2, ∀ u ∈ y.2, s ≤ u :=
        cumGo_pairwise _ []
      rw [show cumGo [] (sortValues (merge_data ps (preprocess_data vs))) =
        withCum (sortValues (merge_data ps (preprocess_data vs))) from rfl, hwc] at hpw
      obtain ⟨-, -, hcross⟩ := List.pairwise_append.1 hpw
      exact hcross x hx1 (a, some t) (List.mem_cons_self _ _)
        (by rw [(keyOf_eq_some hxkey).1, hpe, (keyOf_eq_some hka).1]) s
        (Option.mem_def.2 hx2) t rfl
    · rcases List.mem_cons.1 hx1 with rfl | hx1
      · rw [hka] at hxkey
        rw [Option.some_inj] at hxkey
        exact absurd hlt (hxkey ▸ lt_irrefl k₁)
      · have hxp : x.1 ∈ post := fst_mem_of_mem_cumGo hx1
        have hs' := sortValues_sorted (merge_data ps (preprocess_data vs))
        rw [heq] at hs'
        obtain ⟨-, h2, -⟩ := List.pairwise_append.1 hs'
        have hle' : rowLe a x.1 := (List.pairwise_cons.1 h2).1 x.1 hxp
        exact absurd hle' (not_le.2 (sortKey_lt_of_key_lt hxkey hka hlt))
  exact foldl_max_le hle 0 (Nat.zero_le t)

/-- C6: for a fixed producer, the cumulative values of its records, in the
output's key-ascending order (the aggregator's (Month, Channel) sort order),
are non-decreasing: a later record samples the producer's running total at a
later point of the sorted table. -/
theorem C6_cumulative_monotone (ps : List ProducerRow) (vs : List ViewingRow)
    (i j : Nat) (hij : i ≤ j) (f g : FinalRow)
    (hf : (processPipeline ps vs)[i]? = some f)
    (hg : (processPipeline ps vs)[j]? = some g)
    (hp : f.producer = g.producer) :
    f.cumulative_viewers ≤ g.cumulative_viewers := by
  rw [processPipeline_eq, List.getElem?_map] at hf hg
  obtain ⟨k₁, hki, hfk⟩ := Option.map_eq_some'.1 hf
  obtain ⟨k₂, hkj, hgk⟩ := Option.map_eq_some'.1 hg
  subst hfk
  subst hgk
  rcases eq_or_lt_of_le hij with rfl | hlt
  · rw [hki] at hkj
    rw [Option.some_inj] at hkj
    rw [hkj]
  · obtain ⟨hi', hgi⟩ := List.getElem?_eq_some_iff.1 hki
    obtain ⟨hj', hgj⟩ := List.getElem?_eq_some_iff.1 hkj
    have hsorted : List.Sorted (· < ·) (keysOf (merge_data ps (preprocess_data vs))) :=
      (keysOf_sorted _).lt_of_le (keysOf_nodup _)
    have hklt : k₁ < k₂ := by
      have := (List.pairwise_iff_getElem.1 hsorted) i j hi' hj' hlt
      rwa [hgi, hgj] at this
    have hk₂ : k₂ ∈ keysOf (merge_data ps (preprocess_data vs)) := by
      rw [← hgj]
      exact List.getElem_mem _
    have hpe : keyProducer k₁ = keyProducer k₂ := hp
    exact groupCums_le_of_lt ps vs hk₂ hklt hpe

/-- C6 witness: the producer "P" of `c6Viewings` has two records, January
(cumulative 10) before February (cumulative 15), and 10 ≤ 15. -/
theorem C6_cumulative_monotone_witness :
    (0 : Nat) ≤ 1 ∧
    (processPipeline c6Producers c6Viewings)[0]? =
      some { producer := "P".data, month := toLex (2024, 1), channel := 1,
             top_programme := "A".data, highest_viewers := 10,
             sum_of_viewers := 10, cumulative_viewers := 10 } ∧
    (processPipeline c6Producers c6Viewings)[1]? =
      some { producer := "P".data, month := toLex (2024, 2), channel := 1,
             top_programme := "A".data, highest_viewers := 5,
             sum_of_viewers := 5, cumulative_viewers := 15 } ∧
    (10 : Nat) ≤ 15 :=
  ⟨by decide, by decide, by decide,
    C6_cumulative_monotone c6Producers c6Viewings 0 1 (by decide)
      { producer := "P".data, month := toLex (2024, 1), channel := 1,
        top_programme := "A".data, highest_viewers := 10,
        sum_of_viewers := 10, cumulative_viewers := 10 }
      { producer := "P".data, month := toLex (2024, 2), channel := 1,
        top_programme := "A".data, highest_viewers := 5,
        sum_of_viewers := 5, cumulative_viewers := 15 }
      (by decide) (by decide) (by decide)⟩

/-!  Dropping null-key rows. -/

lemma filterMap_keyOf_filter (rows : List JoinedRow) :
    ((rows.filter fun r => decide (keyOf r ≠ none)).filterMap keyOf) =
      rows.filterMap keyOf := by
  induction rows with
  | nil => rfl
  | cons r rs ih =>
    rcases h : keyOf r with _ | k
    · simpa [List.filter_cons, List.filterMap_cons, h] using ih
    · simpa [List.filter_cons, List.filterMap_cons, h] using ih

lemma keysOf_filter_null (rows : List JoinedRow) :
    keysOf (rows.filter fun r => decide (keyOf r ≠ none)) = keysOf rows := by
  unfold keysOf
  rw [filterMap_keyOf_filter]

lemma groupOf_filter_null (rows : List JoinedRow) (k : Key) :
    groupOf (rows.filter fun r => decide (keyOf r ≠ none)) k = groupOf rows k := by
  unfold groupOf
  rw [List.filter_filter]
  apply List.filter_congr
  intro r _
  by_cases h : keyOf r = some k
  · simp [h]
  · simp [h]

lemma summaryRows_filter_null (rows : List JoinedRow) :
    summaryRows (rows.filter fun r => decide (keyOf r ≠ none)) = summaryRows rows := by
  unfold summaryRows
  rw [keysOf_filter_null]
  apply List.map_congr_left
  intro k _
  unfold mkSummary
  rw [groupOf_filter_null]

/-- C9: a joined row's group key is null exactly when its Month or Channel
cell is null; the grouping excludes such rows from every group (so they feed
no Top_Programme, Highest_Viewers or Sum_of_Viewers), removing them changes
no peak-and-sum row, and every record's Cumulative_Viewers is the producer's
viewer total over a sorted prefix in which every row of that producer has a
non-null key --- null-key rows contribute to no output record. -/
theorem C9_null_key_rows (ps : List ProducerRow) (vs : List ViewingRow) :
    (∀ r : JoinedRow, keyOf r = none ↔ r.month = none ∨ r.channel = none) ∧
    (∀ rows : List JoinedRow, ∀ r : JoinedRow, keyOf r = none →
      ∀ k : Key, r ∉ groupOf rows k) ∧
    summaryRows ((merge_data ps (preprocess_data vs)).filter fun r => decide (keyOf r ≠ none))
      = summaryRows (merge_data ps (preprocess_data vs)) ∧
    ∀ k ∈ keysOf (merge_data ps (preprocess_data vs)),
      ∃ pre post,
        sortValues (merge_data ps (preprocess_data vs)) = pre ++ post ∧
        (∀ x ∈ post, keyOf x ≠ some k) ∧
        (mkFinal (merge_data ps (preprocess_data vs)) k).cumulative_viewers =
          prodSum (keyProducer k) pre ∧
        ∀ r ∈ pre, r.producer = keyProducer k → keyOf r ≠ none := by
  refine ⟨keyOf_eq_none_iff, ?_, summaryRows_filter_null _, ?_⟩
  · intro rows r hnone k hmem
    have h := of_decide_eq_true (List.mem_filter.1 hmem).2
    rw [hnone] at h
    cases h
  · intro k hk
    obtain ⟨pre', a, post, t, heq, hka, hpostk, hwc, hcum, htp, hgc⟩ :=
      cum_decomp _ merged_key_viewers k hk
    refine ⟨pre' ++ [a], post, ?_, hpostk, ?_, ?_⟩
    · rw [heq, List.append_assoc, List.singleton_append]
    · rw [mkFinal_cum, hcum, htp]
    · intro r hr hrp hrnone
      rcases List.mem_append.1 hr with hr' | hr'
      · have hrs : r ∈ sortValues (merge_data ps (preprocess_data vs)) := by
          rw [heq]
          exact List.mem_append.2 (Or.inl hr')
        have hrrows : r ∈ merge_data ps (preprocess_data vs) :=
          (sortValues_perm _).mem_iff.1 hrs
        have hrm : r.month = none := by
          rcases (keyOf_eq_none_iff r).1 hrnone with h | h
          · exact h
          · exact merged_channel_month hrrows h
        have hlt := sortKey_lt_of_month_none hka hrp hrm
        have hs' := sortValues_sorted (merge_data ps (preprocess_data vs))
        rw [heq] at hs'
        obtain ⟨-, -, hcross⟩ := List.pairwise_append.1 hs'
        have hle : rowLe r a := hcross r hr' a (List.mem_cons_self _ _)
        exact absurd hle (not_le.2 hlt)
      · rw [List.mem_singleton.1 hr'] at hrnone
        rw [hka] at hrnone
        cases hrnone

/-!  The serialized month format. -/

lemma digitChar_isDigit (n : Nat) : (digitChar n).isDigit = true := by
  unfold digitChar
  have h : n % 10 < 10 := Nat.mod_lt _ (by norm_num)
  revert h
  generalize n % 10 = k
  intro h
  interval_cases k <;> decide

lemma isYYYYMM_monthToStr (m : Month) : isYYYYMM (monthToStr m) = true := by
  unfold isYYYYMM monthToStr
  simp [digitChar_isDigit]

/-- C8: every serialized record's month cell is the "YYYY-MM" rendering of
its row's month period (four digits, a dash, two digits), and every record is
the image of a final summary row, whose type --- enforced by
`convert_data_types`'s output schema --- carries Producer, Month and
Top_Programme as (non-null) text and Channel, Highest_Viewers, Sum_of_Viewers
and Cumulative_Viewers as integers. -/
theorem C8_output_types (ps : List ProducerRow) (vs : List ViewingRow) :
    ∀ rec ∈ pipelineOutput ps vs, isYYYYMM rec.month = true ∧
      ∃ f ∈ processPipeline ps vs, rec = serializeRow f ∧ rec.month = monthToStr f.month := by
  intro rec hrec
  simp only [pipelineOutput, save_summary_to_json, convert_data_types] at hrec
  obtain ⟨f, hf, rfl⟩ := List.mem_map.1 hrec
  exact ⟨isYYYYMM_monthToStr _, f, hf, rfl, rfl⟩

/-- C8 witness: the scenario's emitted record has a well-formed "2024-01"
month cell and is the serialization of a final summary row. -/
theorem C8_output_types_witness :
    isYYYYMM ({ producer := "Acme".data, month := "2024-01".data, channel := 101,
                top_programme := "Show A".data, highest_viewers := 1000,
                sum_of_viewers := 1500, cumulative_viewers := 1500 } : OutRecord).month = true ∧
    ∃ f ∈ processPipeline c7Producers c7Viewings,
      ({ producer := "Acme".data, month := "2024-01".data, channel := 101,
         top_programme := "Show A".data, highest_viewers := 1000,
         sum_of_viewers := 1500, cumulative_viewers := 1500 } : OutRecord) = serializeRow f ∧
      ({ producer := "Acme".data, month := "2024-01".data, channel := 101,
         top_programme := "Show A".data, highest_viewers := 1000,
         sum_of_viewers := 1500, cumulative_viewers := 1500 } : OutRecord).month =
          monthToStr f.month :=
  C8_output_types c7Producers c7Viewings _ (by decide)

end TVData
